import Mathlib

/-!
Verification of the manifest-merge core of the vso-extension-tools repository.

The source is TypeScript operating on dynamic JSON documents; we embed the
JavaScript values as the inductive type `JVal` and translate each source
function (`Merger.mergeKey`, `Merger.merge`, `VsixWriter.prepManifests`,
`VsixWriter.genContentTypesXml`, `ManifestWriter.removeMetaKeys`, and the
`err` remote-error translator) into an executable Lean definition over `JVal`.
External collaborators (Node path functions, lodash helpers, JSON.parse) are
modelled by small Lean functions whose doc comments state the simplifications.
-/

set_option maxHeartbeats 1000000
set_option linter.unusedVariables false
set_option linter.unnecessarySeqFocus false
set_option linter.unusedTactic false

namespace VsoTools

/-- A JavaScript/JSON value: null, booleans, numbers (the integer fragment),
strings, arrays, and objects as ordered association lists of fields (JS
objects preserve insertion order and have no duplicate keys). -/
inductive JVal where
  | null : JVal
  | bool (b : Bool) : JVal
  | num (n : Int) : JVal
  | str (s : String) : JVal
  | arr (xs : List JVal) : JVal
  | obj (fs : List (String × JVal)) : JVal

/-- Reads a field of an object field list: the JS property read `o[k]`,
returning `none` for a missing property (JS `undefined`). -/
def objGet : List (String × JVal) → String → Option JVal
  | [], _ => none
  | (k, v) :: rest, k' => if k = k' then some v else objGet rest k'

/-- Writes a field of an object field list: the JS property assignment
`o[k] = v`. An existing key keeps its position; a new key is appended,
matching JS insertion-order semantics. -/
def objSet : List (String × JVal) → String → JVal → List (String × JVal)
  | [], k, v => [(k, v)]
  | (k', v') :: rest, k, v =>
    if k' = k then (k, v) :: rest else (k', v') :: objSet rest k v

/-- Top-level property read on a `JVal` (`undefined` on non-objects,
matching a JS property read on a primitive, which yields undefined). -/
def jprop : JVal → String → Option JVal
  | .obj fs, k => objGet fs k
  | _, _ => none

/-- Top-level property assignment on a `JVal`. On a non-object receiver the
JS assignment is a silent no-op (non-strict mode); the pipeline only ever
assigns into objects. -/
def jpropSet : JVal → String → JVal → JVal
  | .obj fs, k, v => .obj (objSet fs k v)
  | other, _, _ => other

/-- List of the top-level keys of an object (empty for non-objects). -/
def topKeys : JVal → List String
  | .obj fs => fs.map Prod.fst
  | _ => []

/-- JS truthiness of a value. -/
def truthy : JVal → Bool
  | .null => false
  | .bool b => b
  | .num n => n != 0
  | .str s => s ≠ ""
  | .arr _ => true
  | .obj _ => true

/-- Whether the value is an array (lodash `_.isArray`). -/
def isArr : JVal → Bool
  | .arr _ => true
  | _ => false

/-- ASCII lowercasing of one character (the effect of JS `toLowerCase`
on the ASCII keys the dispatch table uses). -/
def lowerChar (c : Char) : Char :=
  if 'A' ≤ c ∧ c ≤ 'Z' then Char.ofNat (c.toNat + 32) else c

/-- ASCII lowercasing of a string (JS `toLowerCase` on ASCII text). -/
def lowerStr (s : String) : String :=
  String.mk (s.data.map lowerChar)

/-- Whether `pre` is a prefix of `s` (lodash `_.startsWith`). -/
def strStarts (s pre : String) : Bool :=
  pre.data.isPrefixOf s.data

/-- Whether `suf` is a suffix of `s`. -/
def strEnds (s suf : String) : Bool :=
  suf.data.isSuffixOf s.data

/-- Splits a character list on a separator character; the result always
has one more group than there are separators. -/
def splitChar (sep : Char) (cs : List Char) : List (List Char) :=
  cs.foldr (fun x acc =>
    match acc with
    | [] => [[x]]
    | g :: gs => if x = sep then [] :: g :: gs else (x :: g) :: gs) [[]]

/-- One step of a fixed property path: a named field or an array index. -/
inductive JPath where
  | key (k : String) : JPath
  | idx (i : Nat) : JPath
deriving Repr, DecidableEq

/-- Sets index `i` of a list, padding with `JVal.null` when the index is past
the end (JS array assignment pads with undefined; lodash `_.set` behaves the
same way). All indices used by the source exist in the default template. -/
def listSet : List JVal → Nat → JVal → List JVal
  | [], 0, y => [y]
  | [], n+1, y => JVal.null :: listSet [] n y
  | _ :: xs, 0, y => y :: xs
  | x :: xs, n+1, y => x :: listSet xs n y

/-- Reads a fixed property path (the JS chain `o.a[0].b...`), returning
`none` when any step is missing or applied to the wrong shape. -/
def jget : JVal → List JPath → Option JVal
  | v, [] => some v
  | JVal.obj fs, JPath.key k :: rest =>
    match objGet fs k with
    | some v => jget v rest
    | none => none
  | JVal.arr xs, JPath.idx i :: rest =>
    match xs[i]? with
    | some v => jget v rest
    | none => none
  | _, _ => none

/-- Writes a fixed property path. Models the JS assignments of the source,
which always target paths present in the default template; on a missing
intermediate this total function creates the needed container (as lodash
`_.set` does) where plain JS assignment would instead throw. -/
def jset : JVal → List JPath → JVal → JVal
  | _, [], x => x
  | v, JPath.key k :: rest, x =>
    let fs := match v with | JVal.obj fs => fs | _ => []
    let cur := (objGet fs k).getD JVal.null
    JVal.obj (objSet fs k (jset cur rest x))
  | v, JPath.idx i :: rest, x =>
    let xs := match v with | JVal.arr xs => xs | _ => []
    let cur := xs[i]?.getD JVal.null
    JVal.arr (listSet xs i (jset cur rest x))

mutual
/-- Renders one array element the way `Array.prototype.join` does: null and
undefined become the empty string, primitives stringify, nested arrays join
recursively, plain objects are the generic object tag. -/
def jsToStr : JVal → String
  | .null => ""
  | .bool b => cond b "true" "false"
  | .num n => toString n
  | .str s => s
  | .arr xs => String.intercalate "," (jsToStrList xs)
  | .obj _ => "[object Object]"

/-- Helper for `jsToStr` on the elements of an array. -/
def jsToStrList : List JVal → List String
  | [] => []
  | x :: xs => jsToStr x :: jsToStrList xs
end

/-- The `if (_.isArray(value)) value = value.join(",")` step used by the
`tags`, `vsoflags` and `categories` cases of `mergeKey`. -/
def joinIfArray : JVal → JVal
  | .arr xs => .str (String.intercalate "," (jsToStrList xs))
  | v => v

/-- The argument of `Array.prototype.concat`: an array spreads its elements,
any other value is appended as a single element. -/
def concatArg : JVal → List JVal
  | .arr xs => xs
  | v => [v]

mutual
/-- lodash 3 `_.merge` of one source value `b` into the current destination
value at a key or array index (`none` when the destination key is absent).
The flag `c` enables the customizer of the `contributions` case of
`mergeKey`, which returns `objectValue.concat(sourceValue)` whenever the
destination value is an array. Otherwise plain objects merge recursively;
arrays merge index by index (extra destination elements survive); any other
source value replaces the destination value. -/
def jmergeVal : Bool → Option JVal → JVal → JVal
  | c, some (.arr oa), b =>
    if c then .arr (oa ++ concatArg b)
    else
      match b with
      | .obj bo => .obj (jmergeObj c [] bo)
      | .arr ba => .arr (jmergeArr c oa ba)
      | b' => b'
  | c, some (.obj ao), b =>
    match b with
    | .obj bo => .obj (jmergeObj c ao bo)
    | .arr ba => .arr (jmergeArr c [] ba)
    | b' => b'
  | c, _, b =>
    match b with
    | .obj bo => .obj (jmergeObj c [] bo)
    | .arr ba => .arr (jmergeArr c [] ba)
    | b' => b'

/-- Folds the entries of the source object into the destination field list
(the key loop of lodash baseMerge). -/
def jmergeObj : Bool → List (String × JVal) → List (String × JVal) → List (String × JVal)
  | _, ao, [] => ao
  | c, ao, (k, v) :: rest => jmergeObj c (objSet ao k (jmergeVal c (objGet ao k) v)) rest

/-- Index-wise merge of a source array into a destination array; elements of
the destination beyond the length of the source are kept. -/
def jmergeArr : Bool → List JVal → List JVal → List JVal
  | _, aa, [] => aa
  | c, aa, b :: bs => jmergeVal c aa.head? b :: jmergeArr c aa.tail bs
end

/-- The top-level lodash 3 `_.merge(dst, value, customizer?)` call as used by
the contribution cases of `mergeKey`: the in-place merge only has an effect
when both sides are plain objects; a non-object source leaves the (object)
destination unchanged. (An array source would copy index keys in lodash;
no caller of the contribution cases is specified with an array value.) -/
def jmergeTop (c : Bool) (dst : JVal) (value : JVal) : JVal :=
  match dst, value with
  | .obj fo, .obj fv => .obj (jmergeObj c fo fv)
  | d, _ => d

/-- Path of `vsixManifest.PackageManifest.Metadata[0].Identity[0].$.Id`. -/
def pmIdPath : List JPath :=
  [.key "PackageManifest", .key "Metadata", .idx 0, .key "Identity", .idx 0, .key "$", .key "Id"]

/-- Path of `...Identity[0].$.Version`. -/
def pmVersionPath : List JPath :=
  [.key "PackageManifest", .key "Metadata", .idx 0, .key "Identity", .idx 0, .key "$", .key "Version"]

/-- Path of `...Identity[0].$.Publisher`. -/
def pmPublisherPath : List JPath :=
  [.key "PackageManifest", .key "Metadata", .idx 0, .key "Identity", .idx 0, .key "$", .key "Publisher"]

/-- Path of `...Metadata[0].DisplayName[0]`. -/
def pmDisplayNamePath : List JPath :=
  [.key "PackageManifest", .key "Metadata", .idx 0, .key "DisplayName", .idx 0]

/-- Path of `...Metadata[0].Description[0]._`. -/
def pmDescriptionPath : List JPath :=
  [.key "PackageManifest", .key "Metadata", .idx 0, .key "Description", .idx 0, .key "_"]

/-- Path of `...Metadata[0].ReleaseNotes`. -/
def pmReleaseNotesPath : List JPath :=
  [.key "PackageManifest", .key "Metadata", .idx 0, .key "ReleaseNotes"]

/-- Path of `...Metadata[0].Tags`. -/
def pmTagsPath : List JPath :=
  [.key "PackageManifest", .key "Metadata", .idx 0, .key "Tags"]

/-- Path of `...Metadata[0].VSOFlags`. -/
def pmVSOFlagsPath : List JPath :=
  [.key "PackageManifest", .key "Metadata", .idx 0, .key "VSOFlags"]

/-- Path of `...Metadata[0].Categories`. -/
def pmCategoriesPath : List JPath :=
  [.key "PackageManifest", .key "Metadata", .idx 0, .key "Categories"]

/-- Path of `vsixManifest.PackageManifest.Assets`. -/
def pmAssetsPath : List JPath :=
  [.key "PackageManifest", .key "Assets"]

/-- Path of `vsixManifest.PackageManifest.Assets[0].Asset`. -/
def pmAssetListPath : List JPath :=
  [.key "PackageManifest", .key "Assets", .idx 0, .key "Asset"]

/-- Replaces every backslash by a forward slash:
`path.replace(/\\/g, "/")`. -/
def normSlash (s : String) : String :=
  String.mk (s.data.map (fun c => if c = '\\' then '/' else c))

/-- One `<Asset>` element built by the `assets` case of `mergeKey`: the
object `{$: {Type: asset.type, "d:Source": "File", Path: asset.path with
backslashes normalized}}`. A missing `type` or a non-string `path` is
modelled as null (in JS a missing `type` yields the property value
undefined, and `.replace` on a non-string path would throw; the validated
pipeline only reaches this code with string fields). -/
def assetEntryOf (a : JVal) : JVal :=
  .obj [("$", .obj [
    ("Type", (jprop a "type").getD .null),
    ("d:Source", .str "File"),
    ("Path", match jprop a "path" with
             | some (.str p) => .str (normSlash p)
             | _ => .null)])]

/-- The contribution cases of `mergeKey`: `if (!vso.f) vso.f = {};`
followed by the in-place `_.merge(vso.f, value, customizer?)`. A falsy
current value is replaced by a fresh empty object first; a truthy
non-object current value cannot be merged into in place, so the field
keeps it. -/
def contribMerge (c : Bool) (cur : Option JVal) (value : JVal) : JVal :=
  match cur with
  | some curv =>
    if truthy curv then jmergeTop c curv value
    else jmergeTop c (.obj []) value
  | none => jmergeTop c (.obj []) value

/-- Translation of `Merger.mergeKey` (src/unnamed/part_001 lines 140-227):
the per-key dispatch of the merge engine, switching on the lowercased key
and updating the two accumulators. Keys outside the dispatch table leave
both accumulators unchanged. -/
def mergeKey (key : String) (value : JVal) (vsoManifest vsixManifest : JVal) : JVal × JVal :=
  match lowerStr key with
  | "namespace" =>
    (jpropSet vsoManifest "namespace" value, jset vsixManifest pmIdPath value)
  | "version" =>
    (jpropSet vsoManifest "version" value, jset vsixManifest pmVersionPath value)
  | "name" =>
    (jpropSet vsoManifest "name" value, jset vsixManifest pmDisplayNamePath value)
  | "description" =>
    (jpropSet vsoManifest "description" value, jset vsixManifest pmDescriptionPath value)
  | "publisher" =>
    (vsoManifest, jset vsixManifest pmPublisherPath value)
  | "releasenotes" =>
    (vsoManifest, jset vsixManifest pmReleaseNotesPath (.arr [value]))
  | "tags" =>
    (vsoManifest, jset vsixManifest pmTagsPath (.arr [joinIfArray value]))
  | "vsoflags" =>
    (vsoManifest, jset vsixManifest pmVSOFlagsPath (.arr [joinIfArray value]))
  | "categories" =>
    (vsoManifest, jset vsixManifest pmCategoriesPath (.arr [joinIfArray value]))
  | "baseuri" =>
    (jpropSet vsoManifest "baseUri" value, vsixManifest)
  | "contributions" =>
    (jpropSet vsoManifest "contributions"
      (contribMerge true (jprop vsoManifest "contributions") value), vsixManifest)
  | "contributionpoints" =>
    (jpropSet vsoManifest "contributionPoints"
      (contribMerge false (jprop vsoManifest "contributionPoints") value), vsixManifest)
  | "contributiontypes" =>
    (jpropSet vsoManifest "contributionTypes"
      (contribMerge false (jprop vsoManifest "contributionTypes") value), vsixManifest)
  | "assets" =>
    (vsoManifest,
     match value with
     | .arr xs => jset vsixManifest pmAssetsPath (.arr [.obj [("Asset", .arr (xs.map assetEntryOf))]])
     | _ => vsixManifest)
  | _ => (vsoManifest, vsixManifest)

/-- Modelled from the spec: the default package-manifest template
`src/tmpl/default_vsixmanifest.json` is not under src/. Following section 3
of the spec it is an XML-shaped skeleton with a `PackageManifest.Metadata[0]`
node holding `Identity` (attributes on `$`), `DisplayName` and `Description`,
and a `PackageManifest.Assets[0].Asset` list, initially empty. -/
def defaultVsixManifest : JVal :=
  .obj [("PackageManifest", .obj [
    ("Metadata", .arr [.obj [
      ("Identity", .arr [.obj [("$", .obj [])]]),
      ("DisplayName", .arr [.str ""]),
      ("Description", .arr [.obj [("_", .str "")]])]]),
    ("Assets", .arr [.obj [("Asset", .arr [])]])])]

/-- The two accumulators as initialized by `Merger.merge` (lines 105-108):
`vsoManifest = {__meta_root: root}` and the default template with
`__meta_root = root` assigned. -/
def initState (root : String) : JVal × JVal :=
  (.obj [("__meta_root", .str root)],
   jpropSet defaultVsixManifest "__meta_root" (.str root))

/-- The key loop of `Merger.merge` (lines 131-133) for one partial manifest:
every top-level key of the fragment is dispatched through `mergeKey` in
insertion order. -/
def mergeFragment (st : JVal × JVal) (p : JVal) : JVal × JVal :=
  match p with
  | .obj fs => fs.foldl (fun st kv => mergeKey kv.1 kv.2 st.1 st.2) st
  | _ => st

/-- The accumulator fold of `Merger.merge` (lines 109-134) over an ordered
list of already-parsed partial manifests, without the asset-path resolution
step (which is modelled separately and only rewrites `assets` paths). -/
def mergeAll (root : String) (ps : List JVal) : JVal × JVal :=
  ps.foldl mergeFragment (initState root)

/-- Translation of `ManifestWriter.removeMetaKeys` (lines 406-410):
`_.omit` of every key starting with the `__meta_` reserved prefix. -/
def removeMetaKeys (o : JVal) : JVal :=
  match o with
  | .obj fs => .obj (fs.filter (fun kv => !(strStarts kv.1 "__meta_")))
  | v => v

/-- JSON whitespace. -/
def jsonWs (c : Char) : Bool :=
  c = ' ' || c = '\t' || c = '\n' || c = '\r'

/-- Drops leading JSON whitespace. -/
def skipJWs (cs : List Char) : List Char :=
  cs.dropWhile jsonWs

/-- Value of a hexadecimal digit. -/
def hexVal (c : Char) : Option Nat :=
  if '0' ≤ c ∧ c ≤ '9' then some (c.toNat - '0'.toNat)
  else if 'a' ≤ c ∧ c ≤ 'f' then some (c.toNat - 'a'.toNat + 10)
  else if 'A' ≤ c ∧ c ≤ 'F' then some (c.toNat - 'A'.toNat + 10)
  else none

/-- Parses the remainder of a JSON string literal, after its opening
quote, accumulating characters in reverse. -/
def parseJStr : List Char → List Char → Option (String × List Char)
  | acc, '"' :: rest => some (String.mk acc.reverse, rest)
  | acc, '\\' :: esc :: rest =>
    match esc with
    | '"' => parseJStr ('"' :: acc) rest
    | '\\' => parseJStr ('\\' :: acc) rest
    | '/' => parseJStr ('/' :: acc) rest
    | 'b' => parseJStr ('\x08' :: acc) rest
    | 'f' => parseJStr ('\x0c' :: acc) rest
    | 'n' => parseJStr ('\n' :: acc) rest
    | 'r' => parseJStr ('\r' :: acc) rest
    | 't' => parseJStr ('\t' :: acc) rest
    | 'u' =>
      match rest with
      | h1 :: h2 :: h3 :: h4 :: rest2 =>
        match hexVal h1, hexVal h2, hexVal h3, hexVal h4 with
        | some a, some b, some c, some d =>
          parseJStr (Char.ofNat (((a * 16 + b) * 16 + c) * 16 + d) :: acc) rest2
        | _, _, _, _ => none
      | _ => none
    | _ => none
  | acc, c :: rest =>
    if c = '\\' ∨ c = '"' then none else parseJStr (c :: acc) rest
  | _, [] => none

/-- Numeric value of a digit string. -/
def natOfDigits (ds : List Char) : Nat :=
  ds.foldl (fun n c => n * 10 + (c.toNat - '0'.toNat)) 0

/-- Parses a JSON number. The model covers the integer fragment of JSON:
a fractional part or exponent makes the model parser fail, a restriction
that no claim exercises (JVal numbers are integers). -/
def parseJNum (cs : List Char) : Option (JVal × List Char) :=
  let (neg, cs') := match cs with
                    | '-' :: t => (true, t)
                    | t => (false, t)
  let ds := cs'.takeWhile Char.isDigit
  let rest := cs'.drop ds.length
  if ds = [] then none
  else match rest with
    | '.' :: _ => none
    | 'e' :: _ => none
    | 'E' :: _ => none
    | _ =>
      let n : Int := Int.ofNat (natOfDigits ds)
      some (.num (if neg then -n else n), rest)

mutual
/-- Recursive-descent model of `JSON.parse`, driven by a fuel counter that
the top-level wrapper sets larger than the input length. -/
def parseJVal : Nat → List Char → Option (JVal × List Char)
  | 0, _ => none
  | fuel+1, cs =>
    match skipJWs cs with
    | [] => none
    | c :: rest =>
      if c = '\x7b' then
        match skipJWs rest with
        | '\x7d' :: rest2 => some (.obj [], rest2)
        | cs2 => parseJMembers fuel cs2 []
      else if c = '[' then
        match skipJWs rest with
        | ']' :: rest2 => some (.arr [], rest2)
        | cs2 => parseJItems fuel cs2 []
      else if c = '"' then
        (parseJStr [] rest).map (fun sr => (JVal.str sr.1, sr.2))
      else if c = 't' then
        match rest with
        | 'r' :: 'u' :: 'e' :: r => some (.bool true, r)
        | _ => none
      else if c = 'f' then
        match rest with
        | 'a' :: 'l' :: 's' :: 'e' :: r => some (.bool false, r)
        | _ => none
      else if c = 'n' then
        match rest with
        | 'u' :: 'l' :: 'l' :: r => some (.null, r)
        | _ => none
      else parseJNum (c :: rest)

/-- Parses the members of a JSON object after the opening brace (at least
one member present). A duplicate key keeps the first position and the last
value, as `JSON.parse` does. -/
def parseJMembers : Nat → List Char → List (String × JVal) → Option (JVal × List Char)
  | 0, _, _ => none
  | fuel+1, cs, acc =>
    match skipJWs cs with
    | '"' :: rest =>
      match parseJStr [] rest with
      | some (k, r1) =>
        (match skipJWs r1 with
         | ':' :: r2 =>
           (match parseJVal fuel r2 with
            | some (v, r3) =>
              (match skipJWs r3 with
               | ',' :: r4 => parseJMembers fuel r4 (objSet acc k v)
               | '\x7d' :: r4 => some (.obj (objSet acc k v), r4)
               | _ => none)
            | none => none)
         | _ => none)
      | none => none
    | _ => none

/-- Parses the items of a JSON array after the opening bracket (at least
one item present). -/
def parseJItems : Nat → List Char → List JVal → Option (JVal × List Char)
  | 0, _, _ => none
  | fuel+1, cs, acc =>
    match parseJVal fuel cs with
    | some (v, r1) =>
      (match skipJWs r1 with
       | ',' :: r2 => parseJItems fuel r2 (acc ++ [v])
       | ']' :: r2 => some (.arr (acc ++ [v]), r2)
       | _ => none)
    | none => none
end

/-- Model of `JSON.parse`: `none` is a thrown SyntaxError. -/
def jsonParse (s : String) : Option JVal :=
  match parseJVal (s.length + 1) s.data with
  | some (v, rest) => if skipJWs rest = [] then some v else none
  | none => none

/-- Model of Node `path.isAbsolute` (posix): the path starts with a slash. -/
def pathIsAbsolute (p : String) : Bool :=
  strStarts p "/"

/-- Model of Node `path.dirname` (posix, simplified): the text before the
final slash, `"."` when there is no slash, `"/"` for a root child. -/
def pathDirname (s : String) : String :=
  let parts := (splitChar '/' s.data).map String.mk
  if parts.length ≤ 1 then "."
  else
    let d := String.intercalate "/" parts.dropLast
    if d = "" then "/" else d

/-- Model of Node `path.join` of two segments (simplified: no
normalization of dot segments, which no claim depends on). -/
def pathJoin (a b : String) : String :=
  if a = "" then b
  else if strEnds a "/" then a ++ b
  else a ++ "/" ++ b

/-- Model of Node `path.relative` (simplified: strips the root prefix when
present, otherwise returns the path unchanged; no claim depends on the
exact value). -/
def pathRelative (root p : String) : String :=
  if root = "" then p
  else if strStarts p (root ++ "/") then p.drop (root.length + 1)
  else p

/-- The faults that abort `Merger.merge`: a JSON parse failure (carrying
the surfaced file path and raw text, lines 98-101), a thrown asset
validation message (lines 115-120), or a Node TypeError raised before the
thrown messages, by `Object.keys` on a non-object asset entry (null and
undefined throw in every JS edition, and on the Node 0.12 runtime the
project pins every primitive throws) or by `path.isAbsolute` on a
non-string path. -/
inductive MergeError where
  | parseFailure (file : String) (data : String) : MergeError
  | invalidAsset (msg : String) : MergeError
  | jsTypeFault : MergeError

/-- Message thrown at line 116. -/
def assetKeysMsg : String := "Assets must have a type and a path."

/-- Message thrown at line 119. -/
def relativeMsg : String := "Paths in manifests must be relative."

/-- The key-shape condition of lines 114-115: the entry is an object whose
own keys are exactly `type` and `path`. This is only the condition the
thrown message is named after; the code reaches the check by calling
`Object.keys(asset)`, which on a non-object entry throws a TypeError
instead (see `validateResolveAsset`). -/
def assetKeysOk (a : JVal) : Bool :=
  match a with
  | .obj fs =>
    let ks := fs.map Prod.fst
    ks.length == 2 && ks.contains "type" && ks.contains "path"
  | _ => false

/-- Validation and path rewrite of one asset declaration (lines 113-127):
reject an object with a wrong key set, reject an absolute path, otherwise
replace the path by its form relative to the package root. On a
non-object entry, `Object.keys(asset)` at line 114 throws a TypeError
before any message is thrown (for null and undefined in every JS edition,
and for every primitive on the pinned Node 0.12 runtime), modelled as
`jsTypeFault`; likewise `path.isAbsolute` on a non-string path. -/
def validateResolveAsset (root origin : String) (a : JVal) : Except MergeError JVal :=
  match a with
  | .obj fs =>
    if ¬ assetKeysOk (.obj fs) then .error (.invalidAsset assetKeysMsg)
    else
      match objGet fs "path" with
      | some (.str p) =>
        if pathIsAbsolute p then .error (.invalidAsset relativeMsg)
        else .ok (.obj (objSet fs "path"
          (.str (pathRelative root (pathJoin (pathDirname origin) p)))))
      | _ => .error .jsTypeFault
  | _ => .error .jsTypeFault

/-- The asset loop of lines 113-127: the entries are validated and
rewritten in order, and the first thrown error aborts the loop. -/
def validateResolveAssets (root origin : String) : List JVal → Except MergeError (List JVal)
  | [] => .ok []
  | a :: rest =>
    match validateResolveAsset root origin a with
    | .ok a' => (validateResolveAssets root origin rest).map (fun as' => a' :: as')
    | .error e => .error e

/-- The asset-path transform of lines 111-128 for one partial manifest:
only an `assets` key holding an array is processed; each entry is
validated and its path rewritten relative to the root, using the fragment
origin recorded at parse time. -/
def resolveFragmentAssets (root : String) (p : JVal) : Except MergeError JVal :=
  match p with
  | .obj fs =>
    match objGet fs "assets" with
    | some (.arr as) =>
      let origin := match objGet fs "__origin" with
                    | some (.str s) => s
                    | _ => ""
      (validateResolveAssets root origin as).map
        (fun as' => .obj (objSet fs "assets" (.arr as')))
    | _ => .ok p
  | _ => .ok p

/-- The fragment loop of `Merger.merge` (lines 110-134) from a given
accumulator state: each fragment has its asset paths validated and
resolved, then its keys merged; the first thrown error aborts the loop. -/
def mergeSeq (root : String) (st : JVal × JVal) : List JVal → Except MergeError (JVal × JVal)
  | [] => .ok st
  | p :: rest =>
    match resolveFragmentAssets root p with
    | .ok p' => mergeSeq root (mergeFragment st p') rest
    | .error e => .error e

/-- The fold of `Merger.merge` over parsed fragments, starting from the
initial accumulators. -/
def mergeParsed (root : String) (ps : List JVal) : Except MergeError (JVal × JVal) :=
  mergeSeq root (initState root) ps

/-- The origin tag written at line 96 (`result.__origin = file`); on a
non-object parse result the JS property assignment is a no-op (or a
TypeError on null, which the pipeline never triggers for the claims). -/
def tagOrigin (file : String) (v : JVal) : JVal :=
  match v with
  | .obj fs => .obj (objSet fs "__origin" (.str file))
  | v => v

/-- The loader step of `Merger.merge` (lines 92-104): each (path, raw
text) input is parsed as JSON and tagged with its origin; a parse failure
rejects the whole batch with the failing path and its raw text. -/
def parseFragments : List (String × String) → Except MergeError (List JVal)
  | [] => .ok []
  | fd :: rest =>
    match jsonParse fd.2 with
    | some v => (parseFragments rest).map (fun vs => tagOrigin fd.1 v :: vs)
    | none => .error (.parseFailure fd.1 fd.2)

/-- The whole merge operation (`Merger.merge` up to the final promise):
parse every file, then validate, resolve and fold every fragment. The
`.catch(console.error)` on the returned promise only logs the error. -/
def mergeManifests (root : String) (files : List (String × String)) : Except MergeError (JVal × JVal) :=
  (parseFragments files).bind (mergeParsed root)

/-- Outcome of the `err` translator of src/unnamed/part_000: either a
thrown JS value (string message, raw body object, ...) or a TypeError
raised by reading a property of undefined or null. -/
inductive ErrResult where
  | thrown (v : JVal) : ErrResult
  | typeFault : ErrResult

/-- The fixed credential-expiry message thrown on a 401 status. -/
def authErrMsg : String :=
  "Received response 401 (Not Authorized). Check that your personal access token is correct and hasn\x27t expired."

/-- Reads `message` on the (possibly reassigned) body and finishes the
translator: a property read on undefined or null is a TypeError; a truthy
`message` is thrown; otherwise the body itself is thrown (lines 26-32). -/
def errFinish : Option JVal → ErrResult
  | none => .typeFault
  | some .null => .typeFault
  | some (.obj fs) =>
    match objGet fs "message" with
    | some m => if truthy m then .thrown m else .thrown (.obj fs)
    | none => .thrown (.obj fs)
  | some v => .thrown v

/-- The body handling of lines 15-25 followed by `errFinish`: a truthy
string body is JSON-parsed (an unparsable one is thrown raw); any other
body flows through unchanged. -/
def errBody (body : Option JVal) : ErrResult :=
  match body with
  | some (.str s) =>
    if s ≠ "" then
      match jsonParse s with
      | some v => errFinish (some v)
      | none => .thrown (.str s)
    else errFinish (some (.str s))
  | b => errFinish b

/-- Whether the value is JS null. -/
def isNull : JVal → Bool
  | .null => true
  | _ => false

/-- The strict comparison `statusCode === 401`. -/
def is401 : Option JVal → Bool
  | some (.num n) => n == 401
  | _ => false

/-- The steps shared by both entries of `err` once `errorAsObj` is fixed
(lines 11-32): reading `statusCode` on null is a TypeError; a 401 status
throws the fixed credential message; otherwise the body is examined. -/
def errTranslate (errorAsObj : JVal) : ErrResult :=
  if isNull errorAsObj then .typeFault
  else if is401 (jprop errorAsObj "statusCode") then .thrown (.str authErrMsg)
  else errBody (jprop errorAsObj "body")

/-- Translation of `err` (src/unnamed/part_000): a string input is parsed
as JSON first and thrown as-is when unparsable; then `errTranslate` runs
on the resulting value. -/
def err (obj : JVal) : ErrResult :=
  match obj with
  | .str s =>
    match jsonParse s with
    | none => .thrown (.str s)
    | some v => errTranslate v
  | v => errTranslate v

/-- The static extension-to-MIME table `VsixWriter.CONTENT_TYPE_MAP`
(lines 244-262); note every key is dotless. -/
def contentTypeMap : List (String × String) :=
  [("txt", "text/plain"), ("pkgdef", "text/plain"), ("xml", "text/xml"),
   ("vsixmanifest", "text/xml"), ("vsomanifest", "application/json"),
   ("json", "application/json"), ("htm", "text/html"), ("html", "text/html"),
   ("rtf", "application/rtf"), ("pdf", "application/pdf"), ("gif", "image/gif"),
   ("jpg", "image/jpg"), ("jpeg", "image/jpg"), ("tiff", "image/tiff"),
   ("vsix", "application/zip"), ("zip", "application/zip"),
   ("dll", "application/octet-stream")]

/-- Model of Node `path.extname` (posix): the suffix of the basename from
its last dot, dot included; empty when the basename has no dot past its
first character. -/
def pathExtname (f : String) : String :=
  let cs := ((splitChar '/' f.data).getLast?).getD []
  if (cs.drop 1).contains '.' then
    String.mk ('.' :: (cs.reverse.takeWhile (fun c => c ≠ '.')).reverse)
  else ""

/-- Model of lodash 3 `_.trimLeft` called with a single argument: it trims
leading whitespace only (the second, characters argument defaults to
whitespace), so in particular a leading dot survives. -/
def lodashTrimLeft (s : String) : String :=
  String.mk (s.data.dropWhile Char.isWhitespace)

/-- lodash `_.unique`: keeps the first occurrence of each element. -/
def uniqueKeepFirst (xs : List String) : List String :=
  xs.foldl (fun acc x => if acc.contains x then acc else acc ++ [x]) []

/-- Translation of the `<Default>` entry list built by
`VsixWriter.genContentTypesXml` (lines 353-374): one (Extension,
ContentType) pair per distinct `_.trimLeft(path.extname(f))` of the
archive entry names, looked up in the static table with an
`application/octet-stream` fallback. The surrounding fixed XML scaffolding
is not modelled. -/
def genContentTypesDefaults (fileNames : List String) : List (String × String) :=
  let uniqueExtensions := uniqueKeepFirst (fileNames.map (fun f => lodashTrimLeft (pathExtname f)))
  uniqueExtensions.map (fun ext =>
    (ext, (((contentTypeMap.find? (fun kv => kv.1 == ext)).map Prod.snd).getD
            "application/octet-stream")))

/-- The reserved-type test of lines 279-281:
`_.get(asset, "$.Type", "x").toLowerCase() === "microsoft.vso.manifest"`.
A non-string `$.Type` would make `toLowerCase` throw in JS; the pipeline
only stores string types, and the model treats such an entry as not
matching. -/
def isVsoManifestAsset (a : JVal) : Bool :=
  match jget a [.key "$", .key "Type"] with
  | some (.str s) => lowerStr s == "microsoft.vso.manifest"
  | _ => false

/-- The synthetic asset entry pushed by `prepManifests` (lines 287-290). -/
def manifestAssetEntry : JVal :=
  .obj [("$", .obj [("Type", .str "Microsoft.VSO.Manifest"),
                    ("Path", .str "extension.vsomanifest")])]

/-- Translation of `VsixWriter.prepManifests` (lines 275-291): when the
`Assets[0].Asset` list exists, every entry of the reserved type is removed
and the synthetic manifest entry is appended; when the slot is missing or
falsy, `_.set` installs a fresh one-element list at `Asset[0]` (note the
nested index of the source) holding the pushed entry. A truthy non-array
slot would make `.push` throw in JS and is modelled as a no-op. -/
def prepManifests (vsixManifest : JVal) : JVal :=
  match jget vsixManifest pmAssetListPath with
  | some (.arr xs) =>
    jset vsixManifest pmAssetListPath
      (.arr (xs.filter (fun a => !(isVsoManifestAsset a)) ++ [manifestAssetEntry]))
  | some v =>
    if truthy v then vsixManifest
    else jset vsixManifest (pmAssetListPath ++ [.idx 0]) (.arr [manifestAssetEntry])
  | none => jset vsixManifest (pmAssetListPath ++ [.idx 0]) (.arr [manifestAssetEntry])

/-- Whether the value is a plain object. -/
def isObj : JVal → Bool
  | .obj _ => true
  | _ => false

/-- Divergence test on two fixed property paths: after a common prefix the
paths continue with two different keys, so a write through the first path
cannot be observed through the second. -/
def pathDivB : List JPath → List JPath → Bool
  | JPath.key a :: p, JPath.key b :: q => if a = b then pathDivB p q else true
  | JPath.idx i :: p, JPath.idx j :: q => if i = j then pathDivB p q else false
  | _, _ => false

/-- The overwrite fields of the dispatch table that claim C2 enumerates. -/
inductive OField where
  | fNamespace | fVersion | fName | fDescription | fPublisher | fReleaseNotes
  | fTags | fVsoFlags | fCategories | fBaseUri | fAssets
deriving DecidableEq, Repr

/-- The lowercased dispatch key of each overwrite field. -/
def fieldKey : OField → String
  | .fNamespace => "namespace"
  | .fVersion => "version"
  | .fName => "name"
  | .fDescription => "description"
  | .fPublisher => "publisher"
  | .fReleaseNotes => "releasenotes"
  | .fTags => "tags"
  | .fVsoFlags => "vsoflags"
  | .fCategories => "categories"
  | .fBaseUri => "baseuri"
  | .fAssets => "assets"

/-- Whether a declaration of the field with this value changes the
accumulators at all: every overwrite case is unconditional except
`assets`, whose branch is guarded by `_.isArray(value)`. -/
def isEffective : OField → JVal → Bool
  | .fAssets, v => isArr v
  | _, _ => true

/-- The service-manifest key written by the field, when any. -/
def vsoKeyOf : OField → Option String
  | .fNamespace => some "namespace"
  | .fVersion => some "version"
  | .fName => some "name"
  | .fDescription => some "description"
  | .fBaseUri => some "baseUri"
  | _ => none

/-- The package-manifest path written by the field, when any. -/
def vsixPathOf : OField → Option (List JPath)
  | .fNamespace => some pmIdPath
  | .fVersion => some pmVersionPath
  | .fName => some pmDisplayNamePath
  | .fDescription => some pmDescriptionPath
  | .fPublisher => some pmPublisherPath
  | .fReleaseNotes => some pmReleaseNotesPath
  | .fTags => some pmTagsPath
  | .fVsoFlags => some pmVSOFlagsPath
  | .fCategories => some pmCategoriesPath
  | .fBaseUri => none
  | .fAssets => some pmAssetsPath

/-- The value stored at the package-manifest path for a declaration value:
raw for the plain fields, a one-element list for `releaseNotes`, the
comma-join in a one-element list for `tags`/`vsoFlags`/`categories`, and
the rebuilt `[{Asset: [...]}]` node for an `assets` array. -/
def vsixStored : OField → JVal → JVal
  | .fReleaseNotes, v => .arr [v]
  | .fTags, v => .arr [joinIfArray v]
  | .fVsoFlags, v => .arr [joinIfArray v]
  | .fCategories, v => .arr [joinIfArray v]
  | .fAssets, v =>
    match v with
    | .arr xs => .arr [.obj [("Asset", .arr (xs.map assetEntryOf))]]
    | _ => .null
  | _, v => v

/-- The effective declarations of a field among the entries of one
fragment, in key order: entries whose lowercased key is the dispatch key
of the field and whose value actually takes effect. -/
def declsOfKeys (f : OField) (fs : List (String × JVal)) : List JVal :=
  fs.filterMap (fun kv =>
    if lowerStr kv.1 == fieldKey f && isEffective f kv.2 then some kv.2 else none)

/-- The effective declarations of a field in one fragment value. -/
def declsIn (f : OField) (p : JVal) : List JVal :=
  match p with
  | .obj fs => declsOfKeys f fs
  | _ => []

/-- All effective declarations of a field over an ordered fragment list. -/
def effectiveDecls (f : OField) (ps : List JVal) : List JVal :=
  (ps.map (declsIn f)).flatten

/-- All declarations of a dispatch key over an ordered fragment list,
effective or not (a declaration is any entry whose lowercased key matches). -/
def rawDecls (k : String) (ps : List JVal) : List JVal :=
  (ps.map (fun p =>
    match p with
    | .obj fs => fs.filterMap (fun kv => if lowerStr kv.1 == k then some kv.2 else none)
    | _ => [])).flatten

/-- No top-level key carries the reserved internal prefix or is the origin
tag. -/
def noBadTopKeys (o : JVal) : Bool :=
  (topKeys o).all (fun k => !(strStarts k "__meta_") && k != "__origin")

/-- The accumulator targets of an overwrite field hold the stored form of
the declaration value `v`. -/
def lastTargets (f : OField) (v : JVal) (st : JVal × JVal) : Prop :=
  (∀ tk, vsoKeyOf f = some tk → jprop st.1 tk = some v) ∧
  (∀ tp, vsixPathOf f = some tp → jget st.2 tp = some (vsixStored f v))

/-- The accumulator targets of an overwrite field are unchanged between
two states. -/
def sameTargets (f : OField) (st st' : JVal × JVal) : Prop :=
  (∀ tk, vsoKeyOf f = some tk → jprop st'.1 tk = jprop st.1 tk) ∧
  (∀ tp, vsixPathOf f = some tp → jget st'.2 tp = jget st.2 tp)

theorem objGet_objSet_self (fs : List (String × JVal)) (k : String) (v : JVal) :
    objGet (objSet fs k v) k = some v := by
  induction fs with
  | nil => simp [objSet, objGet]
  | cons kv rest ih =>
    obtain ⟨k', v'⟩ := kv
    by_cases h : k' = k
    · subst h; simp [objSet, objGet]
    · simp [objSet, objGet, h, ih]

theorem objGet_objSet_ne (fs : List (String × JVal)) (k k' : String) (hne : k ≠ k') (v : JVal) :
    objGet (objSet fs k v) k' = objGet fs k' := by
  induction fs with
  | nil => simp [objSet, objGet, hne]
  | cons kv rest ih =>
    obtain ⟨a, b⟩ := kv
    by_cases h : a = k
    · subst h; simp [objSet, objGet, hne]
    · simp [objSet, objGet, h, ih]

theorem listGet_listSet_self (i : Nat) (xs : List JVal) (y : JVal) :
    (listSet xs i y)[i]? = some y := by
  induction i generalizing xs with
  | zero => cases xs <;> simp [listSet]
  | succ n ih => cases xs <;> simp [listSet, ih]

theorem jget_jset_self (p : List JPath) (v x : JVal) :
    jget (jset v p x) p = some x := by
  induction p generalizing v with
  | nil => simp [jset, jget]
  | cons h t ih =>
    cases h with
    | key k => simp [jset, jget, objGet_objSet_self, ih]
    | idx i => simp [jset, jget, listGet_listSet_self, ih]

theorem jget_jset_append (p q : List JPath) (v x : JVal) :
    jget (jset v p x) (p ++ q) = jget x q := by
  induction p generalizing v with
  | nil => simp [jset]
  | cons h t ih =>
    cases h with
    | key k => simp [jset, jget, objGet_objSet_self, ih]
    | idx i => simp [jset, jget, listGet_listSet_self, ih]

theorem pathDivB_nil (p : List JPath) : pathDivB p [] = false := by
  cases p with
  | nil => rfl
  | cons h t => cases h <;> rfl

theorem jget_null_cons (h : JPath) (t : List JPath) : jget JVal.null (h :: t) = none := by
  cases h <;> rfl

theorem jget_jset_div (p : List JPath) (q : List JPath) (h : pathDivB p q = true) (v x : JVal) :
    jget (jset v p x) q = jget v q := by
  induction p generalizing q v with
  | nil => simp [pathDivB] at h
  | cons hp tp ih =>
    cases hp with
    | key a =>
      cases q with
      | nil => simp [pathDivB] at h
      | cons hq tq =>
        cases hq with
        | key b =>
          by_cases hab : a = b
          · subst hab
            have hrec : pathDivB tp tq = true := by simpa [pathDivB] using h
            have htq : tq ≠ [] := by
              intro hnil; rw [hnil, pathDivB_nil] at hrec; exact Bool.false_ne_true hrec
            obtain ⟨hq2, tq2, rfl⟩ : ∃ h2 t2, tq = h2 :: t2 := by
              cases tq with
              | nil => exact absurd rfl htq
              | cons h2 t2 => exact ⟨h2, t2, rfl⟩
            cases v with
            | obj fs =>
              cases hv : objGet fs a with
              | some c =>
                simp [jset, jget, objGet_objSet_self, hv, ih _ hrec]
              | none =>
                simp [jset, jget, objGet_objSet_self, hv, ih _ hrec, jget_null_cons]
            | null => simp [jset, jget, objGet_objSet_self, objGet, ih _ hrec, jget_null_cons]
            | bool b => simp [jset, jget, objGet_objSet_self, objGet, ih _ hrec, jget_null_cons]
            | num n => simp [jset, jget, objGet_objSet_self, objGet, ih _ hrec, jget_null_cons]
            | str s => simp [jset, jget, objGet_objSet_self, objGet, ih _ hrec, jget_null_cons]
            | arr xs => simp [jset, jget, objGet_objSet_self, objGet, ih _ hrec, jget_null_cons]
          · cases v with
            | obj fs => simp [jset, jget, objGet_objSet_ne _ _ _ hab]
            | null => simp [jset, jget, objGet, hab]
            | bool b => simp [jset, jget, objGet, hab]
            | num n => simp [jset, jget, objGet, hab]
            | str s => simp [jset, jget, objGet, hab]
            | arr xs => simp [jset, jget, objGet, hab]
        | idx j => simp [pathDivB] at h
    | idx i =>
      cases q with
      | nil => simp [pathDivB] at h
      | cons hq tq =>
        cases hq with
        | key b => simp [pathDivB] at h
        | idx j =>
          by_cases hij : i = j
          · subst hij
            have hrec : pathDivB tp tq = true := by simpa [pathDivB] using h
            have htq : tq ≠ [] := by
              intro hnil; rw [hnil, pathDivB_nil] at hrec; exact Bool.false_ne_true hrec
            obtain ⟨hq2, tq2, rfl⟩ : ∃ h2 t2, tq = h2 :: t2 := by
              cases tq with
              | nil => exact absurd rfl htq
              | cons h2 t2 => exact ⟨h2, t2, rfl⟩
            cases v with
            | arr xs =>
              cases hv : xs[i]? with
              | some c =>
                simp [jset, jget, listGet_listSet_self, hv, ih _ hrec]
              | none =>
                simp [jset, jget, listGet_listSet_self, hv, ih _ hrec, jget_null_cons]
            | null => simp [jset, jget, listGet_listSet_self, ih _ hrec, jget_null_cons]
            | bool b => simp [jset, jget, listGet_listSet_self, ih _ hrec, jget_null_cons]
            | num n => simp [jset, jget, listGet_listSet_self, ih _ hrec, jget_null_cons]
            | str s => simp [jset, jget, listGet_listSet_self, ih _ hrec, jget_null_cons]
            | obj fs => simp [jset, jget, listGet_listSet_self, ih _ hrec, jget_null_cons]
          · simp [pathDivB, hij] at h

/-- C9: the remote-error translator yields the fixed credential-expiry
message for statusCode 401; unwraps `message` from a JSON-encoded string
body; surfaces a message-less object body raw; and surfaces a non-JSON
string input as-is. -/
theorem err_translation_cases :
    err (.obj [("statusCode", .num 401)]) = .thrown (.str authErrMsg) ∧
    err (.obj [("body", .str "\x7b\"message\":\"X\"\x7d")]) = .thrown (.str "X") ∧
    err (.obj [("body", .obj [("foo", .num 1)])]) = .thrown (.obj [("foo", .num 1)]) ∧
    err (.str "not json") = .thrown (.str "not json") :=
  ⟨rfl, rfl, rfl, rfl⟩

/-- C5 (evaluation at the failing input): because lodash `_.trimLeft` with
one argument trims whitespace rather than the leading dot, every archive
extension keeps its dot, misses the dotless static table, and maps to
application/octet-stream; `a.json` does not produce the
(json, application/json) entry the claim and the spec describe. -/
theorem genContentTypes_dot_not_stripped :
    genContentTypesDefaults ["extension.vsomanifest", "extension.vsixmanifest", "a.json"] =
      [(".vsomanifest", "application/octet-stream"),
       (".vsixmanifest", "application/octet-stream"),
       (".json", "application/octet-stream")] ∧
    lodashTrimLeft (pathExtname "a.json") = ".json" :=
  ⟨rfl, rfl⟩

/-- C10 (counterexample): an input object with a falsy but non-nullish
`body` (here the number 0) and a non-401 statusCode does not raise a
TypeError: JS boxes primitives on property access, `0 .message` is
undefined, and the translator throws the raw body 0 instead. -/
theorem err_falsy_body_no_typeFault :
    truthy (.num 0) = false ∧
    is401 (jprop (.obj [("statusCode", .num 200), ("body", .num 0)]) "statusCode") = false ∧
    err (.obj [("statusCode", .num 200), ("body", .num 0)]) = .thrown (.num 0) ∧
    err (.obj [("statusCode", .num 200), ("body", .num 0)]) ≠ .typeFault := by
  refine ⟨rfl, rfl, rfl, ?_⟩
  intro h
  rw [show err (.obj [("statusCode", .num 200), ("body", .num 0)]) = .thrown (.num 0) from rfl] at h
  exact ErrResult.noConfusion h

/-- C10 (amended): for every input object whose statusCode is not 401 and
whose `body` is absent or null, the translator reads `message` on
undefined or null and fails with a TypeError; a falsy but non-nullish
body is instead thrown raw. -/
theorem err_nullish_body_typeFault (fs : List (String × JVal))
    (h401 : is401 (objGet fs "statusCode") = false)
    (hbody : objGet fs "body" = none ∨ objGet fs "body" = some JVal.null) :
    err (.obj fs) = .typeFault := by
  have he : err (.obj fs) = errTranslate (.obj fs) := rfl
  rw [he]
  unfold errTranslate
  simp only [isNull, jprop, h401, Bool.false_eq_true, if_false]
  rcases hbody with h | h <;> simp [errBody, h, errFinish]

theorem err_nullish_body_typeFault_witness :
    err (.obj [("statusCode", .num 200)]) = .typeFault :=
  err_nullish_body_typeFault [("statusCode", .num 200)] rfl (Or.inl rfl)

/-- C3: when the `assets` value is an array of well-formed declarations,
`mergeKey` rebuilds `PackageManifest.Assets[0].Asset` from scratch — one
entry per declaration carrying Type, the `d:Source` attribute File, and
the slash-normalized Path — discarding whatever assets any earlier
fragment had contributed (the result does not depend on the prior
`vsixManifest`); a non-array `assets` value changes nothing. -/
theorem mergeKey_assets_replace :
    (∀ (vso vsix : JVal) (ts : List (String × String)),
      (mergeKey "assets"
        (.arr (ts.map (fun tp => .obj [("type", .str tp.1), ("path", .str tp.2)])))
        vso vsix).1 = vso ∧
      jget (mergeKey "assets"
        (.arr (ts.map (fun tp => .obj [("type", .str tp.1), ("path", .str tp.2)])))
        vso vsix).2 pmAssetListPath =
        some (.arr (ts.map (fun tp =>
          .obj [("$", .obj [("Type", .str tp.1), ("d:Source", .str "File"),
                            ("Path", .str (normSlash tp.2))])])))) ∧
    (∀ (vso vsix v : JVal), isArr v = false → mergeKey "assets" v vso vsix = (vso, vsix)) := by
  constructor
  · intro vso vsix ts
    constructor
    · rfl
    · have h1 : (mergeKey "assets"
          (.arr (ts.map (fun tp => .obj [("type", .str tp.1), ("path", .str tp.2)])))
          vso vsix).2 =
          jset vsix pmAssetsPath
            (.arr [.obj [("Asset",
              .arr ((ts.map (fun tp => .obj [("type", .str tp.1), ("path", .str tp.2)])).map assetEntryOf))]]) := rfl
      rw [h1]
      have h2 : pmAssetListPath = pmAssetsPath ++ [.idx 0, .key "Asset"] := rfl
      rw [h2, jget_jset_append]
      simp [jget, objGet, List.map_map]
      intro a b hab
      rfl
  · intro vso vsix v hv
    cases v <;> first
      | rfl
      | simp [isArr] at hv

theorem mergeKey_assets_replace_witness :
    (mergeKey "assets" (.arr [.obj [("type", .str "t"), ("path", .str "a\\b.png")]])
        (.obj []) defaultVsixManifest).1 = .obj [] ∧
    jget (mergeKey "assets" (.arr [.obj [("type", .str "t"), ("path", .str "a\\b.png")]])
        (.obj []) defaultVsixManifest).2 pmAssetListPath =
      some (.arr [.obj [("$", .obj [("Type", .str "t"), ("d:Source", .str "File"),
                                    ("Path", .str "a/b.png")])]]) ∧
    mergeKey "assets" (.str "x") (.obj []) defaultVsixManifest = (.obj [], defaultVsixManifest) := by
  refine ⟨(mergeKey_assets_replace.1 (.obj []) defaultVsixManifest [("t", "a\\b.png")]).1,
          ?_, mergeKey_assets_replace.2 (.obj []) defaultVsixManifest (.str "x") rfl⟩
  have h := (mergeKey_assets_replace.1 (.obj []) defaultVsixManifest [("t", "a\\b.png")]).2
  simpa using h

/-- C6: the archive-preparation step is idempotent on the synthetic
manifest asset: on any package manifest whose `Assets[0].Asset` slot holds
a list, running `prepManifests` twice leaves exactly one entry of the
reserved type Microsoft.VSO.Manifest (the synthetic entry pointing at the
service-manifest file name), not two, and the second run changes nothing. -/
theorem prepManifests_idempotent (vsix : JVal) (xs : List JVal)
    (h : jget vsix pmAssetListPath = some (.arr xs)) :
    ∃ ys, jget (prepManifests (prepManifests vsix)) pmAssetListPath = some (.arr ys) ∧
      ys.filter isVsoManifestAsset = [manifestAssetEntry] ∧
      jget (prepManifests (prepManifests vsix)) pmAssetListPath
        = jget (prepManifests vsix) pmAssetListPath := by
  have h1 : prepManifests vsix =
      jset vsix pmAssetListPath
        (.arr (xs.filter (fun a => !(isVsoManifestAsset a)) ++ [manifestAssetEntry])) := by
    unfold prepManifests
    rw [h]
  have h2 : jget (prepManifests vsix) pmAssetListPath =
      some (.arr (xs.filter (fun a => !(isVsoManifestAsset a)) ++ [manifestAssetEntry])) := by
    rw [h1, jget_jset_self]
  have hman : isVsoManifestAsset manifestAssetEntry = true := rfl
  have h3 : prepManifests (prepManifests vsix) =
      jset (prepManifests vsix) pmAssetListPath
        (.arr ((xs.filter (fun a => !(isVsoManifestAsset a)) ++ [manifestAssetEntry]).filter
            (fun a => !(isVsoManifestAsset a)) ++ [manifestAssetEntry])) := by
    generalize hgen : prepManifests vsix = w at h2 ⊢
    unfold prepManifests
    rw [h2]
  have hnand : (fun a => !(isVsoManifestAsset a) && !(isVsoManifestAsset a))
      = fun a => !(isVsoManifestAsset a) := by
    funext a; cases isVsoManifestAsset a <;> rfl
  have hfil : (xs.filter (fun a => !(isVsoManifestAsset a)) ++ [manifestAssetEntry]).filter
      (fun a => !(isVsoManifestAsset a)) = xs.filter (fun a => !(isVsoManifestAsset a)) := by
    rw [List.filter_append, List.filter_filter, hnand]
    simp [hman]
  refine ⟨xs.filter (fun a => !(isVsoManifestAsset a)) ++ [manifestAssetEntry], ?_, ?_, ?_⟩
  · rw [h3, jget_jset_self, hfil]
  · rw [List.filter_append, List.filter_filter]
    have hzero : (fun a => !(isVsoManifestAsset a) && isVsoManifestAsset a)
        = fun _ => false := by
      funext a; cases isVsoManifestAsset a <;> rfl
    simp [hzero, hman]
  · rw [h3, jget_jset_self, hfil, h2]

theorem parseFragments_ok_isSome (files : List (String × String)) (ps : List JVal)
    (h : parseFragments files = .ok ps) :
    ∀ fd ∈ files, (jsonParse fd.2).isSome = true := by
  induction files generalizing ps with
  | nil => intro fd hm; cases hm
  | cons fd0 rest ih =>
    intro fd hm
    unfold parseFragments at h
    cases hp : jsonParse fd0.2 with
    | none => rw [hp] at h; simp at h
    | some v =>
      rw [hp] at h
      cases hr : parseFragments rest with
      | error e => rw [hr] at h; simp [Except.map] at h
      | ok vs =>
        rcases List.mem_cons.mp hm with heq | hm2
        · rw [heq, hp]; rfl
        · exact ih vs hr fd hm2

theorem parseFragments_first_failure (files : List (String × String)) (f d : String)
    (hmem : (f, d) ∈ files) (hp : jsonParse d = none) :
    ∃ f' d', parseFragments files = .error (.parseFailure f' d') ∧
      (f', d') ∈ files ∧ jsonParse d' = none := by
  induction files with
  | nil => cases hmem
  | cons fd0 rest ih =>
    cases hp0 : jsonParse fd0.2 with
    | none =>
      refine ⟨fd0.1, fd0.2, ?_, List.mem_cons.mpr (Or.inl rfl), hp0⟩
      unfold parseFragments
      rw [hp0]
    | some v =>
      rcases List.mem_cons.mp hmem with heq | hm2
      · exfalso
        have h2 : fd0.2 = d := by rw [← heq]
        rw [h2, hp] at hp0
        cases hp0
      · obtain ⟨f', d', hrec, hmem', hp'⟩ := ih hm2
        refine ⟨f', d', ?_, List.mem_cons.mpr (Or.inr hmem'), hp'⟩
        unfold parseFragments
        rw [hp0, hrec]
        rfl

/-- C7: merged manifests are produced only when every input file parses as
JSON; if any input fails to parse, the whole merge operation results in an
error carrying the failing file path and its raw text (the information the
catch block surfaces), never in a merged manifest pair. -/
theorem merge_fails_on_parse_failure :
    (∀ (root : String) (files : List (String × String)) (res : JVal × JVal),
      mergeManifests root files = .ok res → ∀ fd ∈ files, (jsonParse fd.2).isSome = true) ∧
    (∀ (root : String) (files : List (String × String)) (f d : String),
      (f, d) ∈ files → jsonParse d = none →
      ∃ f' d', mergeManifests root files = .error (.parseFailure f' d') ∧
        (f', d') ∈ files ∧ jsonParse d' = none) := by
  constructor
  · intro root files res h
    cases hpf : parseFragments files with
    | error e =>
      exfalso
      unfold mergeManifests at h
      rw [hpf] at h
      simp [Except.bind] at h
    | ok ps => exact parseFragments_ok_isSome files ps hpf
  · intro root files f d hmem hp
    obtain ⟨f', d', hpf, hmem', hp'⟩ := parseFragments_first_failure files f d hmem hp
    refine ⟨f', d', ?_, hmem', hp'⟩
    unfold mergeManifests
    rw [hpf]
    rfl

theorem merge_fails_on_parse_failure_witness :
    ∃ f' d', mergeManifests "root" [("good.json", "\x7b\"name\":\"n\"\x7d"), ("bad.json", "\x7b")]
        = .error (.parseFailure f' d') ∧
      (f', d') ∈ [("good.json", "\x7b\"name\":\"n\"\x7d"), ("bad.json", "\x7b")] ∧
      jsonParse d' = none :=
  merge_fails_on_parse_failure.2 "root"
    [("good.json", "\x7b\"name\":\"n\"\x7d"), ("bad.json", "\x7b")]
    "bad.json" "\x7b" (by simp) rfl

theorem jmergeObj_objGet_not_mem (c : Bool) (src : List (String × JVal)) (k : String)
    (h : ∀ kv ∈ src, kv.1 ≠ k) (ao : List (String × JVal)) :
    objGet (jmergeObj c ao src) k = objGet ao k := by
  induction src generalizing ao with
  | nil => rfl
  | cons kv rest ih =>
    obtain ⟨k', v'⟩ := kv
    have hk' : k' ≠ k := h (k', v') (by simp)
    have hrest : ∀ kv ∈ rest, kv.1 ≠ k := fun kv hm => h kv (by simp [hm])
    show objGet (jmergeObj c (objSet ao k' (jmergeVal c (objGet ao k') v')) rest) k = objGet ao k
    rw [ih hrest, objGet_objSet_ne _ _ _ hk']

theorem jmergeObj_concat_at_key (src : List (String × JVal)) (k : String) (sa : List JVal)
    (hsk : objGet src k = some (.arr sa))
    (hnd : (src.map Prod.fst).Nodup)
    (ao : List (String × JVal)) (oa : List JVal)
    (hak : objGet ao k = some (.arr oa)) :
    objGet (jmergeObj true ao src) k = some (.arr (oa ++ sa)) := by
  induction src generalizing ao with
  | nil => simp [objGet] at hsk
  | cons kv rest ih =>
    obtain ⟨k', v'⟩ := kv
    by_cases hk : k' = k
    · subst hk
      have hv' : v' = .arr sa := by
        have := hsk
        simp [objGet] at this
        exact this
      subst hv'
      have hnotin : ∀ kv ∈ rest, kv.1 ≠ k' := by
        rintro ⟨a1, a2⟩ hm heq
        rw [List.map_cons, List.nodup_cons] at hnd
        apply hnd.1
        have h1 : a1 ∈ rest.map Prod.fst := List.mem_map_of_mem Prod.fst hm
        rw [← heq]
        exact h1
      show objGet (jmergeObj true (objSet ao k' (jmergeVal true (objGet ao k') (.arr sa))) rest) k'
          = some (.arr (oa ++ sa))
      rw [jmergeObj_objGet_not_mem _ _ _ hnotin, objGet_objSet_self]
      rw [hak]
      rfl
    · have hsk' : objGet rest k = some (.arr sa) := by
        have := hsk
        simpa [objGet, hk] using this
      have hnd' : (rest.map Prod.fst).Nodup := by
        rw [List.map_cons, List.nodup_cons] at hnd
        exact hnd.2
      show objGet (jmergeObj true (objSet ao k' (jmergeVal true (objGet ao k') v')) rest) k
          = some (.arr (oa ++ sa))
      exact ih hsk' hnd' _ (by rw [objGet_objSet_ne _ _ _ hk, hak])

/-- C1: when merging through `contributions`, a key whose value is an array
on both the accumulator and the incoming fragment concatenates with the
accumulator entries first; the plain deep-merge used for
`contributionPoints` (and `contributionTypes`) instead overwrites:
merging x:[1] then x:[2] yields contributions.x = [1,2] but
contributionPoints.x = [2]. -/
theorem contributions_concat_points_overwrite :
    (∀ (vfs acc src : List (String × JVal)) (k : String) (oa sa : List JVal) (vsix : JVal),
      objGet vfs "contributions" = some (.obj acc) →
      objGet acc k = some (.arr oa) →
      objGet src k = some (.arr sa) →
      (src.map Prod.fst).Nodup →
      (jprop (mergeKey "contributions" (.obj src) (.obj vfs) vsix).1 "contributions").bind
          (fun cv => jprop cv k) = some (.arr (oa ++ sa))) ∧
    jprop (mergeAll "" [.obj [("contributions", .obj [("x", .arr [.num 1])])],
                        .obj [("contributions", .obj [("x", .arr [.num 2])])]]).1 "contributions"
      = some (.obj [("x", .arr [.num 1, .num 2])]) ∧
    jprop (mergeAll "" [.obj [("contributionPoints", .obj [("x", .arr [.num 1])])],
                        .obj [("contributionPoints", .obj [("x", .arr [.num 2])])]]).1 "contributionPoints"
      = some (.obj [("x", .arr [.num 2])]) := by
  refine ⟨?_, rfl, rfl⟩
  intro vfs acc src k oa sa vsix hc hak hsk hnd
  have h1 : (mergeKey "contributions" (.obj src) (.obj vfs) vsix).1
      = jpropSet (.obj vfs) "contributions"
          (contribMerge true (objGet vfs "contributions") (.obj src)) := rfl
  rw [h1, hc]
  have h2 : contribMerge true (some (.obj acc)) (.obj src) = .obj (jmergeObj true acc src) := rfl
  rw [h2]
  show (jprop (.obj (objSet vfs "contributions" (.obj (jmergeObj true acc src)))) "contributions").bind
      (fun cv => jprop cv k) = some (.arr (oa ++ sa))
  simp only [jprop, objGet_objSet_self, Option.bind_some]
  exact jmergeObj_concat_at_key src k sa hsk hnd acc oa hak

theorem contributions_concat_points_overwrite_witness :
    (jprop (mergeKey "contributions" (.obj [("x", .arr [.num 2])])
        (.obj [("contributions", .obj [("x", .arr [.num 1])])]) defaultVsixManifest).1
        "contributions").bind (fun cv => jprop cv "x") = some (.arr [.num 1, .num 2]) :=
  contributions_concat_points_overwrite.1
    [("contributions", .obj [("x", .arr [.num 1])])] [("x", .arr [.num 1])]
    [("x", .arr [.num 2])] "x" [.num 1] [.num 2] defaultVsixManifest rfl rfl rfl (by simp)

theorem mem_keys_objSet (fs : List (String × JVal)) (k : String) (v : JVal) (k' : String)
    (h : k' ∈ (objSet fs k v).map Prod.fst) : k' ∈ fs.map Prod.fst ∨ k' = k := by
  induction fs with
  | nil =>
    simp [objSet] at h
    exact Or.inr h
  | cons kv rest ih =>
    obtain ⟨a, b⟩ := kv
    by_cases hak : a = k
    · subst hak
      simp [objSet] at h
      rcases h with rfl | h
      · exact Or.inl (by simp)
      · exact Or.inl (by simp [h])
    · simp [objSet, hak] at h
      rcases h with rfl | ⟨x, hx⟩
      · exact Or.inl (by simp)
      · rcases ih (List.mem_map_of_mem Prod.fst hx) with h1 | h1
        · exact Or.inl (by simp at h1 ⊢; exact Or.inr h1)
        · exact Or.inr h1

theorem topKeys_jpropSet (o : JVal) (k : String) (v : JVal) (k' : String)
    (h : k' ∈ topKeys (jpropSet o k v)) : k' ∈ topKeys o ∨ k' = k := by
  cases o with
  | obj fs => exact mem_keys_objSet fs k v k' h
  | null => exact Or.inl h
  | bool b => exact Or.inl h
  | num n => exact Or.inl h
  | str s => exact Or.inl h
  | arr xs => exact Or.inl h

theorem topKeys_jset_key (vv : JVal) (k : String) (rest : List JPath) (x : JVal) (k' : String)
    (h : k' ∈ topKeys (jset vv (JPath.key k :: rest) x)) : k' ∈ topKeys vv ∨ k' = k := by
  cases vv with
  | obj fs => exact mem_keys_objSet fs k _ k' h
  | null => simp [jset, topKeys, objSet] at h; exact Or.inr h
  | bool b => simp [jset, topKeys, objSet] at h; exact Or.inr h
  | num n => simp [jset, topKeys, objSet] at h; exact Or.inr h
  | str s => simp [jset, topKeys, objSet] at h; exact Or.inr h
  | arr xs => simp [jset, topKeys, objSet] at h; exact Or.inr h

theorem mergeKey_vso_topKeys (k : String) (v vso vsix : JVal) (k' : String)
    (hk : k' ∈ topKeys (mergeKey k v vso vsix).1) :
    k' ∈ topKeys vso ∨ k' ∈ (["namespace", "version", "name", "description", "baseUri",
      "contributions", "contributionPoints", "contributionTypes"] : List String) := by
  unfold mergeKey at hk
  split at hk
  all_goals try split at hk
  all_goals first
    | exact Or.inl hk
    | (rcases topKeys_jpropSet _ _ _ _ hk with h | h
       · exact Or.inl h
       · exact Or.inr (by rw [h]; simp))

theorem mergeKey_vsix_topKeys (k : String) (v vso vsix : JVal) (k' : String)
    (hk : k' ∈ topKeys (mergeKey k v vso vsix).2) :
    k' ∈ topKeys vsix ∨ k' = "PackageManifest" := by
  unfold mergeKey at hk
  split at hk
  all_goals try split at hk
  all_goals first
    | exact Or.inl hk
    | exact topKeys_jset_key _ _ _ _ _ hk

theorem mergeFragment_vso_topKeys (st : JVal × JVal) (p : JVal) (k' : String)
    (hk : k' ∈ topKeys (mergeFragment st p).1) :
    k' ∈ topKeys st.1 ∨ k' ∈ (["namespace", "version", "name", "description", "baseUri",
      "contributions", "contributionPoints", "contributionTypes"] : List String) := by
  cases p with
  | obj fs =>
    have hgen : ∀ (fs : List (String × JVal)) (st : JVal × JVal),
        k' ∈ topKeys (fs.foldl (fun st kv => mergeKey kv.1 kv.2 st.1 st.2) st).1 →
        k' ∈ topKeys st.1 ∨ k' ∈ (["namespace", "version", "name", "description", "baseUri",
          "contributions", "contributionPoints", "contributionTypes"] : List String) := by
      intro fs
      induction fs with
      | nil => intro st h; exact Or.inl h
      | cons kv rest ih =>
        intro st h
        rcases ih (mergeKey kv.1 kv.2 st.1 st.2) h with h1 | h1
        · exact mergeKey_vso_topKeys kv.1 kv.2 st.1 st.2 k' h1
        · exact Or.inr h1
    exact hgen fs st hk
  | null => exact Or.inl hk
  | bool b => exact Or.inl hk
  | num n => exact Or.inl hk
  | str s => exact Or.inl hk
  | arr xs => exact Or.inl hk

theorem mergeFragment_vsix_topKeys (st : JVal × JVal) (p : JVal) (k' : String)
    (hk : k' ∈ topKeys (mergeFragment st p).2) :
    k' ∈ topKeys st.2 ∨ k' = "PackageManifest" := by
  cases p with
  | obj fs =>
    have hgen : ∀ (fs : List (String × JVal)) (st : JVal × JVal),
        k' ∈ topKeys (fs.foldl (fun st kv => mergeKey kv.1 kv.2 st.1 st.2) st).2 →
        k' ∈ topKeys st.2 ∨ k' = "PackageManifest" := by
      intro fs
      induction fs with
      | nil => intro st h; exact Or.inl h
      | cons kv rest ih =>
        intro st h
        rcases ih (mergeKey kv.1 kv.2 st.1 st.2) h with h1 | h1
        · exact mergeKey_vsix_topKeys kv.1 kv.2 st.1 st.2 k' h1
        · exact Or.inr h1
    exact hgen fs st hk
  | null => exact Or.inl hk
  | bool b => exact Or.inl hk
  | num n => exact Or.inl hk
  | str s => exact Or.inl hk
  | arr xs => exact Or.inl hk

theorem mergeAll_vso_topKeys (root : String) (ps : List JVal) (k' : String)
    (hk : k' ∈ topKeys (mergeAll root ps).1) :
    k' = "__meta_root" ∨ k' ∈ (["namespace", "version", "name", "description", "baseUri",
      "contributions", "contributionPoints", "contributionTypes"] : List String) := by
  have hgen : ∀ (ps : List JVal) (st : JVal × JVal),
      k' ∈ topKeys (ps.foldl mergeFragment st).1 →
      k' ∈ topKeys st.1 ∨ k' ∈ (["namespace", "version", "name", "description", "baseUri",
        "contributions", "contributionPoints", "contributionTypes"] : List String) := by
    intro ps
    induction ps with
    | nil => intro st h; exact Or.inl h
    | cons p rest ih =>
      intro st h
      rcases ih (mergeFragment st p) h with h1 | h1
      · exact mergeFragment_vso_topKeys st p k' h1
      · exact Or.inr h1
  rcases hgen ps (initState root) hk with h1 | h1
  · left
    simpa [initState, topKeys] using h1
  · right
    exact h1

theorem mergeAll_vsix_topKeys (root : String) (ps : List JVal) (k' : String)
    (hk : k' ∈ topKeys (mergeAll root ps).2) :
    k' ∈ (["PackageManifest", "__meta_root"] : List String) := by
  have hgen : ∀ (ps : List JVal) (st : JVal × JVal),
      k' ∈ topKeys (ps.foldl mergeFragment st).2 →
      k' ∈ topKeys st.2 ∨ k' = "PackageManifest" := by
    intro ps
    induction ps with
    | nil => intro st h; exact Or.inl h
    | cons p rest ih =>
      intro st h
      rcases ih (mergeFragment st p) h with h1 | h1
      · exact mergeFragment_vsix_topKeys st p k' h1
      · exact Or.inr h1
  rcases hgen ps (initState root) hk with h1 | h1
  · have : topKeys (initState root).2 = ["PackageManifest", "__meta_root"] := rfl
    rw [this] at h1
    exact h1
  · simp [h1]

theorem topKeys_removeMetaKeys (o : JVal) (k : String)
    (h : k ∈ topKeys (removeMetaKeys o)) :
    k ∈ topKeys o ∧ strStarts k "__meta_" = false := by
  cases o with
  | obj fs =>
    simp only [removeMetaKeys, topKeys] at h
    obtain ⟨kv, hkv, rfl⟩ := List.mem_map.mp h
    have hmem := List.mem_filter.mp hkv
    constructor
    · exact List.mem_map_of_mem Prod.fst hmem.1
    · have := hmem.2
      simp at this
      exact this
  | null => cases h
  | bool b => cases h
  | num n => cases h
  | str s => cases h
  | arr xs => cases h

/-- C4: the serializer strips every key carrying the reserved `__meta_`
prefix from both accumulators, and no internal bookkeeping attribute
survives merging: the top level of both emitted documents is free of
`__meta_`-prefixed keys and of the per-fragment `__origin` tag, and the
`__origin` key itself falls through the dispatch table without touching
either accumulator. -/
theorem no_internal_keys_emitted :
    (∀ (root : String) (ps : List JVal),
      noBadTopKeys (removeMetaKeys (mergeAll root ps).1) = true ∧
      noBadTopKeys (removeMetaKeys (mergeAll root ps).2) = true) ∧
    (∀ (v vso vsix : JVal), mergeKey "__origin" v vso vsix = (vso, vsix)) := by
  constructor
  · intro root ps
    constructor
    · rw [noBadTopKeys, List.all_eq_true]
      intro k hk
      obtain ⟨h1, h2⟩ := topKeys_removeMetaKeys _ _ hk
      rcases mergeAll_vso_topKeys root ps k h1 with rfl | h3
      · rw [show strStarts "__meta_root" "__meta_" = true from rfl] at h2
        cases h2
      · simp at h3
        rcases h3 with rfl | rfl | rfl | rfl | rfl | rfl | rfl | rfl <;> exact rfl
    · rw [noBadTopKeys, List.all_eq_true]
      intro k hk
      obtain ⟨h1, h2⟩ := topKeys_removeMetaKeys _ _ hk
      have h3 := mergeAll_vsix_topKeys root ps k h1
      simp at h3
      rcases h3 with rfl | rfl
      · exact rfl
      · rw [show strStarts "__meta_root" "__meta_" = true from rfl] at h2
        cases h2
  · intro v vso vsix
    rfl

theorem prepManifests_idempotent_witness :
    ∃ ys, jget (prepManifests (prepManifests defaultVsixManifest)) pmAssetListPath
        = some (.arr ys) ∧
      ys.filter isVsoManifestAsset = [manifestAssetEntry] ∧
      jget (prepManifests (prepManifests defaultVsixManifest)) pmAssetListPath
        = jget (prepManifests defaultVsixManifest) pmAssetListPath :=
  prepManifests_idempotent defaultVsixManifest [] rfl

theorem jprop_jpropSet_self (o : JVal) (k : String) (v : JVal) (h : isObj o = true) :
    jprop (jpropSet o k v) k = some v := by
  cases o with
  | obj fs => simp [jprop, jpropSet, objGet_objSet_self]
  | null => simp [isObj] at h
  | bool b => simp [isObj] at h
  | num n => simp [isObj] at h
  | str s => simp [isObj] at h
  | arr xs => simp [isObj] at h

theorem jprop_jpropSet_ne (o : JVal) (k k' : String) (v : JVal) (hne : k ≠ k') :
    jprop (jpropSet o k v) k' = jprop o k' := by
  cases o with
  | obj fs => simp [jprop, jpropSet, objGet_objSet_ne _ _ _ hne]
  | null => rfl
  | bool b => rfl
  | num n => rfl
  | str s => rfl
  | arr xs => rfl

theorem jpropSet_isObj (o : JVal) (k : String) (v : JVal) (h : isObj o = true) :
    isObj (jpropSet o k v) = true := by
  cases o <;> simp_all [jpropSet, isObj]

theorem mergeKey_isObj (k : String) (v vso vsix : JVal) (h : isObj vso = true) :
    isObj (mergeKey k v vso vsix).1 = true := by
  unfold mergeKey
  split
  all_goals first
    | exact h
    | exact jpropSet_isObj _ _ _ h

theorem mergeFragment_isObj (st : JVal × JVal) (p : JVal) (h : isObj st.1 = true) :
    isObj (mergeFragment st p).1 = true := by
  cases p with
  | obj fs =>
    have hgen : ∀ (fs : List (String × JVal)) (st : JVal × JVal), isObj st.1 = true →
        isObj ((fs.foldl (fun st kv => mergeKey kv.1 kv.2 st.1 st.2) st)).1 = true := by
      intro fs
      induction fs with
      | nil => intro st h; exact h
      | cons kv rest ih =>
        intro st h
        exact ih _ (mergeKey_isObj kv.1 kv.2 st.1 st.2 h)
    exact hgen fs st h
  | null => exact h
  | bool b => exact h
  | num n => exact h
  | str s => exact h
  | arr xs => exact h

theorem sameTargets_refl (f : OField) (st : JVal × JVal) : sameTargets f st st :=
  ⟨fun _ _ => rfl, fun _ _ => rfl⟩

theorem sameTargets_trans (f : OField) (a b c : JVal × JVal)
    (h1 : sameTargets f a b) (h2 : sameTargets f b c) : sameTargets f a c :=
  ⟨fun tk ht => (h2.1 tk ht).trans (h1.1 tk ht),
   fun tp ht => (h2.2 tp ht).trans (h1.2 tp ht)⟩

theorem lastTargets_of_same (f : OField) (v : JVal) (st st' : JVal × JVal)
    (h1 : lastTargets f v st) (h2 : sameTargets f st st') : lastTargets f v st' :=
  ⟨fun tk ht => (h2.1 tk ht).trans (h1.1 tk ht),
   fun tp ht => (h2.2 tp ht).trans (h1.2 tp ht)⟩

theorem mergeKey_frame_ne (f : OField) (k : String) (v : JVal) (vso vsix : JVal)
    (h : lowerStr k ≠ fieldKey f) :
    sameTargets f (vso, vsix) (mergeKey k v vso vsix) := by
  constructor
  · intro t ht
    cases f <;> simp only [vsoKeyOf] at ht <;> try exact Option.noConfusion ht
    all_goals (
      injection ht with ht2
      subst ht2
      simp only [fieldKey] at h
      unfold mergeKey
      split
      all_goals first
        | rfl
        | exact jprop_jpropSet_ne _ _ _ _ (by decide)
        | (rename_i heq; exact absurd heq h))
  · intro t ht
    cases f <;> simp only [vsixPathOf] at ht <;> try exact Option.noConfusion ht
    all_goals (
      injection ht with ht2
      subst ht2
      simp only [fieldKey] at h
      unfold mergeKey
      split
      all_goals first
        | rfl
        | exact jget_jset_div _ _ (by decide) _ _
        | (rename_i heq; exact absurd heq h)
        | (cases v <;> first
            | rfl
            | exact jget_jset_div _ _ (by decide) _ _))

theorem mergeKey_assets_noop (k : String) (v : JVal) (vso vsix : JVal)
    (hk : lowerStr k = "assets") (hv : isArr v = false) :
    mergeKey k v vso vsix = (vso, vsix) := by
  unfold mergeKey
  rw [hk]
  cases v with
  | arr xs => simp [isArr] at hv
  | null => rfl
  | bool b => rfl
  | num n => rfl
  | str s => rfl
  | obj fs => rfl

theorem mergeKey_step_frame (f : OField) (k : String) (w : JVal) (vso vsix : JVal)
    (hcond : (lowerStr k == fieldKey f && isEffective f w) = false) :
    sameTargets f (vso, vsix) (mergeKey k w vso vsix) := by
  by_cases hkey : lowerStr k = fieldKey f
  · have heff : isEffective f w = false := by
      rcases Bool.and_eq_false_iff.mp hcond with h1 | h1
      · exfalso
        rw [beq_eq_false_iff_ne] at h1
        exact h1 hkey
      · exact h1
    cases f with
    | fAssets =>
      rw [mergeKey_assets_noop k w vso vsix hkey heff]
      exact sameTargets_refl _ _
    | fNamespace => simp [isEffective] at heff
    | fVersion => simp [isEffective] at heff
    | fName => simp [isEffective] at heff
    | fDescription => simp [isEffective] at heff
    | fPublisher => simp [isEffective] at heff
    | fReleaseNotes => simp [isEffective] at heff
    | fTags => simp [isEffective] at heff
    | fVsoFlags => simp [isEffective] at heff
    | fCategories => simp [isEffective] at heff
    | fBaseUri => simp [isEffective] at heff
  · exact mergeKey_frame_ne f k w vso vsix hkey

theorem mergeKey_effect (f : OField) (k : String) (v : JVal) (vso vsix : JVal)
    (hobj : isObj vso = true)
    (hk : lowerStr k = fieldKey f) (heff : isEffective f v = true) :
    lastTargets f v (mergeKey k v vso vsix) := by
  cases f <;> (
    simp only [fieldKey] at hk
    constructor <;> (
      intro t ht
      simp only [vsoKeyOf, vsixPathOf] at ht
      first
      | exact Option.noConfusion ht
      | (injection ht with ht2
         subst ht2
         unfold mergeKey
         rw [hk]
         first
         | exact jprop_jpropSet_self _ _ _ hobj
         | exact jget_jset_self _ _ _
         | (obtain ⟨xs, rfl⟩ : ∃ xs, v = JVal.arr xs := by
              cases v <;> first
                | exact ⟨_, rfl⟩
                | simp [isEffective, isArr] at heff
            exact jget_jset_self _ _ _))))

theorem foldKeys_none (f : OField) (fs : List (String × JVal)) (st : JVal × JVal)
    (h : declsOfKeys f fs = []) :
    sameTargets f st (fs.foldl (fun st kv => mergeKey kv.1 kv.2 st.1 st.2) st) := by
  induction fs generalizing st with
  | nil => exact sameTargets_refl f st
  | cons kv rest ih =>
    obtain ⟨k, w⟩ := kv
    by_cases hcond : (lowerStr k == fieldKey f && isEffective f w) = true
    · obtain ⟨hk1, hk2⟩ := (Bool.and_eq_true _ _).mp hcond
      rw [show declsOfKeys f ((k, w) :: rest) = w :: declsOfKeys f rest from by
        simp [declsOfKeys, List.filterMap_cons, beq_iff_eq.mp hk1, hk2]] at h
      cases h
    · have hprop : ¬(lowerStr k = fieldKey f ∧ isEffective f w = true) := by
        rintro ⟨h1, h2⟩
        exact hcond (by rw [h1, h2]; simp)
      have hrest : declsOfKeys f rest = [] := by
        rw [show declsOfKeys f ((k, w) :: rest) = declsOfKeys f rest from by
          simp [declsOfKeys, List.filterMap_cons, hprop]] at h
        exact h
      have hstep := mergeKey_step_frame f k w st.1 st.2 (eq_false_of_ne_true hcond)
      exact sameTargets_trans f st (mergeKey k w st.1 st.2) _ hstep (ih _ hrest)

theorem foldKeys_last (f : OField) (fs : List (String × JVal)) (st : JVal × JVal) (v : JVal)
    (hobj : isObj st.1 = true)
    (h : (declsOfKeys f fs).getLast? = some v) :
    lastTargets f v (fs.foldl (fun st kv => mergeKey kv.1 kv.2 st.1 st.2) st) := by
  induction fs generalizing st with
  | nil => simp [declsOfKeys] at h
  | cons kv rest ih =>
    obtain ⟨k, w⟩ := kv
    by_cases hcond : (lowerStr k == fieldKey f && isEffective f w) = true
    · obtain ⟨hk1, hk2⟩ := (Bool.and_eq_true _ _).mp hcond
      have hdecl : declsOfKeys f ((k, w) :: rest) = w :: declsOfKeys f rest := by
        simp [declsOfKeys, List.filterMap_cons, beq_iff_eq.mp hk1, hk2]
      rw [hdecl] at h
      cases hrest : declsOfKeys f rest with
      | nil =>
        rw [hrest] at h
        have hv : w = v := by simpa using h
        subst hv
        have heffect := mergeKey_effect f k w st.1 st.2 hobj (beq_iff_eq.mp hk1) hk2
        exact lastTargets_of_same f w _ _ heffect (foldKeys_none f rest _ hrest)
      | cons d ds =>
        rw [hrest] at h
        have h2 : (declsOfKeys f rest).getLast? = some v := by
          rw [hrest, ← List.getLast?_cons_cons]
          exact h
        exact ih _ (mergeKey_isObj k w st.1 st.2 hobj) h2
    · have hprop : ¬(lowerStr k = fieldKey f ∧ isEffective f w = true) := by
        rintro ⟨h1, h2⟩
        exact hcond (by rw [h1, h2]; simp)
      have hdecl : declsOfKeys f ((k, w) :: rest) = declsOfKeys f rest := by
        simp [declsOfKeys, List.filterMap_cons, hprop]
      rw [hdecl] at h
      exact ih _ (mergeKey_isObj k w st.1 st.2 hobj) h

theorem mergeFragment_none (f : OField) (st : JVal × JVal) (p : JVal)
    (h : declsIn f p = []) : sameTargets f st (mergeFragment st p) := by
  cases p with
  | obj fs => exact foldKeys_none f fs st h
  | null => exact sameTargets_refl f st
  | bool b => exact sameTargets_refl f st
  | num n => exact sameTargets_refl f st
  | str s => exact sameTargets_refl f st
  | arr xs => exact sameTargets_refl f st

theorem mergeFragment_last (f : OField) (st : JVal × JVal) (p : JVal) (v : JVal)
    (hobj : isObj st.1 = true)
    (h : (declsIn f p).getLast? = some v) : lastTargets f v (mergeFragment st p) := by
  cases p with
  | obj fs => exact foldKeys_last f fs st v hobj h
  | null => simp [declsIn] at h
  | bool b => simp [declsIn] at h
  | num n => simp [declsIn] at h
  | str s => simp [declsIn] at h
  | arr xs => simp [declsIn] at h

theorem mergeList_none (f : OField) (ps : List JVal) (st : JVal × JVal)
    (h : effectiveDecls f ps = []) :
    sameTargets f st (ps.foldl mergeFragment st) := by
  induction ps generalizing st with
  | nil => exact sameTargets_refl f st
  | cons p rest ih =>
    have hsplit : declsIn f p = [] ∧ effectiveDecls f rest = [] := by
      have h2 : declsIn f p ++ effectiveDecls f rest = [] := by
        simpa [effectiveDecls] using h
      exact List.append_eq_nil.mp h2
    exact sameTargets_trans f st _ _ (mergeFragment_none f st p hsplit.1) (ih _ hsplit.2)

theorem mergeList_last (f : OField) (ps : List JVal) (st : JVal × JVal) (v : JVal)
    (hobj : isObj st.1 = true)
    (h : (effectiveDecls f ps).getLast? = some v) :
    lastTargets f v (ps.foldl mergeFragment st) := by
  induction ps generalizing st with
  | nil => simp [effectiveDecls] at h
  | cons p rest ih =>
    have happ : effectiveDecls f (p :: rest) = declsIn f p ++ effectiveDecls f rest := by
      simp [effectiveDecls]
    rw [happ] at h
    cases hrest : effectiveDecls f rest with
    | nil =>
      rw [hrest, List.append_nil] at h
      exact lastTargets_of_same f v _ _ (mergeFragment_last f st p v hobj h)
        (mergeList_none f rest _ hrest)
    | cons d ds =>
      rw [hrest] at h
      rw [List.getLast?_append_of_ne_nil (declsIn f p)
        (show (d :: ds : List JVal) ≠ [] from by simp)] at h
      exact ih _ (mergeFragment_isObj st p hobj) (by rw [hrest]; exact h)

/-- C2 (amended): for every ordered fragment list and every overwrite
field, the final accumulator targets hold the stored form of the last
*effective* declaration of that field (case-insensitive key match): the
raw value for the plain fields, a one-element list for releaseNotes, the
comma-join in a one-element list for tags/vsoFlags/categories, and the
rebuilt Assets node for assets — where, for assets only, a declaration is
effective when its value is an array (a non-array assets declaration is a
no-op rather than an overwrite). -/
theorem overwrite_fields_last_writer (root : String) (ps : List JVal) (f : OField) (v : JVal)
    (h : (effectiveDecls f ps).getLast? = some v) :
    (∀ tk, vsoKeyOf f = some tk → jprop (mergeAll root ps).1 tk = some v) ∧
    (∀ tp, vsixPathOf f = some tp → jget (mergeAll root ps).2 tp = some (vsixStored f v)) :=
  mergeList_last f ps (initState root) v rfl h

theorem overwrite_fields_last_writer_witness :
    jprop (mergeAll "" [.obj [("name", .str "first")], .obj [("NAME", .str "second")]]).1 "name"
      = some (.str "second") ∧
    jget (mergeAll "" [.obj [("name", .str "first")], .obj [("NAME", .str "second")]]).2
        pmDisplayNamePath = some (.str "second") :=
  ⟨(overwrite_fields_last_writer "" [.obj [("name", .str "first")], .obj [("NAME", .str "second")]]
      OField.fName (.str "second") rfl).1 "name" rfl,
   (overwrite_fields_last_writer "" [.obj [("name", .str "first")], .obj [("NAME", .str "second")]]
      OField.fName (.str "second") rfl).2 pmDisplayNamePath rfl⟩

/-- C2 (counterexample): the claim fails for `assets` as stated. In the
fragment list [p1, p2] below, p2 is the last fragment declaring `assets`
(with the non-array value "x"), yet the final Assets node still holds
exactly the entry built from p1: the earlier fragment value is not
replaced, because the assets branch is guarded by `_.isArray(value)` and a
non-array declaration does nothing. -/
theorem assets_last_declarer_not_replacing :
    rawDecls "assets"
        [.obj [("assets", .arr [.obj [("type", .str "t"), ("path", .str "p")]])],
         .obj [("assets", .str "x")]]
      = [.arr [.obj [("type", .str "t"), ("path", .str "p")]], .str "x"] ∧
    jget (mergeAll "" [.obj [("assets", .arr [.obj [("type", .str "t"), ("path", .str "p")]])]]).2
        pmAssetListPath
      = some (.arr [.obj [("$", .obj [("Type", .str "t"), ("d:Source", .str "File"),
                                      ("Path", .str "p")])]]) ∧
    jget (mergeAll "" [.obj [("assets", .arr [.obj [("type", .str "t"), ("path", .str "p")]])],
                       .obj [("assets", .str "x")]]).2 pmAssetListPath
      = some (.arr [.obj [("$", .obj [("Type", .str "t"), ("d:Source", .str "File"),
                                      ("Path", .str "p")])]]) :=
  ⟨rfl, rfl, rfl⟩

end VsoTools
